import Mathlib

/-
  Shallow embedding of the Rekall memory-scanning engine (rekall/scan.py).

  Buffers hold lists of characters (one per byte); offsets are natural
  numbers.  The scanner's `last_reported_hit` sentinel is an integer,
  initialised to -1 as in the source.  Fallible constructors return
  `Except String`.  The generator-based `scan` is modelled as a fueled
  recursion returning the list of yielded offsets (`none` = out of fuel).
-/

/-- Byte strings are modelled as lists of characters. -/
abbrev Str := List Char

/-- Convert a Lean string literal to the byte-string model. -/
def chars (s : String) : Str := s.toList

/-- Python `data.startswith(needle, start)`: the needle occurs at index
`start`, which must be within the data. -/
def startswith (data needle : Str) (start : Nat) : Bool :=
  decide (start ≤ data.length) && needle.isPrefixOf (data.drop start)

/-- Helper for `strFind`: try indices `i, i+1, ...` for `steps` steps. -/
def findFrom (data needle : Str) (i : Nat) : Nat → Option Nat
  | 0 => none
  | steps + 1 =>
    if startswith data needle i then some i
    else findFrom data needle (i + 1) steps

/-- Python `data.find(needle, start)`: the least index `≥ start` where the
needle occurs, `none` (Python: -1) when there is none. -/
def strFind (data needle : Str) (start : Nat) : Option Nat :=
  findFrom data needle start (data.length + 1 - start)

/-- Modelled from the spec: `addrspace.BufferAddressSpace` (the repository's
`rekall/addrspace.py` is not part of the sources).  §4.1 BufferView: a
contiguous byte buffer together with the absolute address of its first
byte. -/
structure BufferAddressSpace where
  data : Str
  base_offset : Nat
deriving DecidableEq

/-- `BufferAddressSpace.end()`: absolute address one past the data. -/
def BufferAddressSpace.end' (b : BufferAddressSpace) : Nat :=
  b.base_offset + b.data.length

/-- `BufferAddressSpace.get_buffer_offset(offset)`: absolute to relative. -/
def BufferAddressSpace.get_buffer_offset (b : BufferAddressSpace) (offset : Nat) : Nat :=
  offset - b.base_offset

/-- The abstract base check (`ScannerCheck` in scan.py); it carries no
state that the scan loop consults. -/
structure ScannerCheck where
deriving DecidableEq

/-- `ScannerCheck.check`: the base implementation returns False. -/
def ScannerCheck.check (_c : ScannerCheck) (_buffer_as : BufferAddressSpace)
    (_offset : Nat) : Bool :=
  false

/-- `ScannerCheck.skip`: the base implementation returns 0. -/
def ScannerCheck.skip (_c : ScannerCheck) (_buffer_as : BufferAddressSpace)
    (_offset : Nat) : Nat :=
  0

/-- `StringCheck`: checks for a single string. -/
structure StringCheck where
  needle : Str
deriving DecidableEq

/-- `StringCheck.check`: does the needle start at the given offset? -/
def StringCheck.check (c : StringCheck) (buffer_as : BufferAddressSpace)
    (offset : Nat) : Bool :=
  startswith buffer_as.data c.needle (buffer_as.get_buffer_offset offset)

/-- `StringCheck.skip`: search the rest of the buffer (from the next byte
on) for the needle; if absent, skip the entire region. -/
def StringCheck.skip (c : StringCheck) (buffer_as : BufferAddressSpace)
    (offset : Nat) : Nat :=
  let buffer_offset := buffer_as.get_buffer_offset offset
  match strFind buffer_as.data c.needle (buffer_offset + 1) with
  | some dindex => dindex - buffer_offset
  | none => buffer_as.end' - offset

/-- `SignatureScannerCheck`: ordered multi-part signature with a cursor
into the needle list. -/
structure SignatureScannerCheck where
  needles : List Str
  current_needle : Nat
deriving DecidableEq

/-- `SignatureScannerCheck.__init__`: a missing or empty needle list is a
`RuntimeError` at construction time. -/
def SignatureScannerCheck.init (needles : Option (List Str)) :
    Except String SignatureScannerCheck :=
  match needles with
  | none => .error "No needles provided to search."
  | some ns =>
    if ns.isEmpty then .error "No needles provided to search."
    else .ok { needles := ns, current_needle := 0 }

/-- `SignatureScannerCheck.check`: returns the matched part (`some`) and
advances the cursor, or `none` (Python: False). -/
def SignatureScannerCheck.check (c : SignatureScannerCheck)
    (buffer_as : BufferAddressSpace) (offset : Nat) :
    SignatureScannerCheck × Option Str :=
  if c.needles.length ≤ c.current_needle then (c, none)
  else
    let buffer_offset := buffer_as.get_buffer_offset offset
    let next_part := c.needles.getD c.current_needle []
    if startswith buffer_as.data next_part buffer_offset then
      ({ c with current_needle := c.current_needle + 1 }, some next_part)
    else (c, none)

/-- The `correction` computed inside `SignatureScannerCheck.skip`: the
length of the previous part when the cursor is past the first part. -/
def SignatureScannerCheck.correction (c : SignatureScannerCheck) : Nat :=
  if c.current_needle = 0 then 0
  else (c.needles.getD (c.current_needle - 1) []).length

/-- `SignatureScannerCheck.skip`: when exhausted, skip the whole buffer;
otherwise search for the current part starting `correction` bytes past the
current position. -/
def SignatureScannerCheck.skip (c : SignatureScannerCheck)
    (buffer_as : BufferAddressSpace) (offset : Nat) : Nat :=
  if c.needles.length ≤ c.current_needle then buffer_as.end' - offset
  else
    let buffer_offset := buffer_as.get_buffer_offset offset
    let next_part := c.needles.getD c.current_needle []
    match strFind buffer_as.data next_part (buffer_offset + c.correction) with
    | some dindex => dindex - buffer_offset
    | none => buffer_as.end' - offset

/-- All `(needle, position)` pairs of needle occurrences at index `i`
(one step of the Aho-Corasick `engine.findall` model). -/
def hitsAt (needles : List Str) (data : Str) (i : Nat) : List (Str × Nat) :=
  (needles.filter (fun n => startswith data n i)).map (fun n => (n, i))

/-- Model of `acora` `engine.findall(data)`: every `(needle, position)`
occurrence pair in the data. -/
def acoraHits (needles : List Str) (data : Str) : List (Str × Nat) :=
  ((List.range (data.length + 1)).map (hitsAt needles data)).flatten

/-- Insert a hit into a list kept in descending order of position
(stable, equal keys stay behind earlier entries). -/
def insertDesc (x : Str × Nat) : List (Str × Nat) → List (Str × Nat)
  | [] => [x]
  | y :: ys => if x.2 ≤ y.2 then y :: insertDesc x ys else x :: y :: ys

/-- Python `sorted(hits, key=lambda x: x[1], reverse=True)`: sort the hit
list in descending order of position. -/
def sortDesc (l : List (Str × Nat)) : List (Str × Nat) :=
  l.foldl (fun acc x => insertDesc x acc) []

/-- The hit list `MultiStringFinderCheck.check` caches for a buffer:
all occurrences, sorted descending by relative offset. -/
def computeHits (needles : List Str) (data : Str) : List (Str × Nat) :=
  sortDesc (acoraHits needles data)

/-- `MultiStringFinderCheck`: Aho-Corasick multi-string check with a
per-buffer cache of hits (`hits` descending by relative offset, consumed
from the tail; `none` models Python `None`). -/
structure MultiStringFinderCheck where
  needles : List Str
  base_offset : Option Nat
  hits : Option (List (Str × Nat))
deriving DecidableEq

/-- `MultiStringFinderCheck.__init__`: a missing or empty needle list is a
`RuntimeError` at construction time. -/
def MultiStringFinderCheck.init (needles : Option (List Str)) :
    Except String MultiStringFinderCheck :=
  match needles with
  | none => .error "No needles provided to search."
  | some ns =>
    if ns.isEmpty then .error "No needles provided to search."
    else .ok { needles := ns, base_offset := none, hits := none }

/-- The `while self.hits:` loop of `MultiStringFinderCheck.check`.  The
source pops from the tail of the descending list; here the loop runs over
the reversed (ascending) list, popping from the head. -/
def msfCheckLoopRev (revHits : List (Str × Nat)) (data_offset : Nat) :
    List (Str × Nat) × Option Str :=
  match revHits with
  | [] => ([], none)
  | (s, off) :: rest =>
    if off = data_offset then (rest, some s)
    else if off < data_offset then msfCheckLoopRev rest data_offset
    else (revHits, none)

/-- `MultiStringFinderCheck.check`: refresh the hit cache when the buffer
changed, then pop stale hits; report a hit whose relative offset equals
the queried one. -/
def MultiStringFinderCheck.check (c : MultiStringFinderCheck)
    (buffer_as : BufferAddressSpace) (offset : Nat) :
    MultiStringFinderCheck × Option Str :=
  let c :=
    if some buffer_as.base_offset ≠ c.base_offset then
      { c with hits := some (computeHits c.needles buffer_as.data),
               base_offset := some buffer_as.base_offset }
    else c
  let data_offset := offset - buffer_as.base_offset
  match c.hits with
  | none => (c, none)
  | some hits =>
    let r := msfCheckLoopRev hits.reverse data_offset
    ({ c with hits := some r.1.reverse }, r.2)

/-- The `while self.hits:` loop of `MultiStringFinderCheck.skip`, again on
the reversed (ascending) list.  Note the source rebinds its `offset`
argument to the popped hit's relative offset inside the loop; the `offset`
parameter here is threaded the same way. -/
def msfSkipLoopRev (revHits : List (Str × Nat)) (data_offset offset endAbs : Nat) :
    List (Str × Nat) × Nat :=
  match revHits with
  | [] => ([], endAbs - offset)
  | (s, hoff) :: rest =>
    if hoff < data_offset then msfSkipLoopRev rest data_offset hoff endAbs
    else ((s, hoff) :: rest, hoff - data_offset)

/-- `MultiStringFinderCheck.skip`: drop stale hits, then report the
distance to the next cached hit; with no hits left, skip the buffer. -/
def MultiStringFinderCheck.skip (c : MultiStringFinderCheck)
    (buffer_as : BufferAddressSpace) (offset : Nat) :
    MultiStringFinderCheck × Nat :=
  let data_offset := offset - buffer_as.base_offset
  match c.hits with
  | none => (c, buffer_as.end' - offset)
  | some hits =>
    let r := msfSkipLoopRev hits.reverse data_offset offset buffer_as.end'
    ({ c with hits := some r.1.reverse }, r.2)

/-- The two dynamically dispatched methods the scan loop calls
(`self.check_addr` and `self.skip`), over a scanner/constraint state `σ`.
`check_addr` returns `true` when the result is a hit (Python: not None),
`skip` returns the advance the skippers allow. -/
structure ScannerOps (σ : Type) where
  check_addr : σ → BufferAddressSpace → Nat → σ × Bool
  skip : σ → BufferAddressSpace → Nat → σ × Nat

/-- `BaseScanner.skip`: fold the skippers' skips with `max`, starting at 1
(`skip = 1; for s in self.skippers: skip = max(skip, s.skip(...))`). -/
def BaseScanner.skip (skippers : List (BufferAddressSpace → Nat → Nat))
    (buffer_as : BufferAddressSpace) (offset : Nat) : Nat :=
  skippers.foldl (fun acc s => max acc (s buffer_as offset)) 1

/-- The `overlap` class attribute of `BaseScanner` (scan.py line 326). -/
def BaseScanner.overlap : Nat := 1024

/-- The part of the `BaseScanner` constructor state the claims consult. -/
structure BaseScannerInit where
  window_size : Nat
deriving DecidableEq

/-- `BaseScanner.__init__`: `window_size` is a keyword parameter whose
default value is 8; `none` models omitting it. -/
def BaseScanner.init (window_size : Option Nat) : BaseScannerInit :=
  { window_size := window_size.getD 8 }

/-- The inner `while scan_offset < buffer_as.end():` loop of
`BaseScanner.scan` over one buffer, as a fueled recursion.  Returns the
yielded offsets, the final `last_reported_hit`, the final constraint
state and the final `scan_offset`; `none` means the fuel ran out. -/
def scanLoop {σ : Type} (ops : ScannerOps σ) (buffer_as : BufferAddressSpace) :
    Nat → Nat → Int → σ → Option (List Nat × Int × σ × Nat)
  | fuel, scan_offset, last_reported_hit, st =>
    if scan_offset < buffer_as.end' then
      match fuel with
      | 0 => none
      | fuel + 1 =>
        let c := ops.check_addr st buffer_as scan_offset
        let hit := c.2 && decide (last_reported_hit < (scan_offset : Int))
        let last1 : Int := if hit then (scan_offset : Int) else last_reported_hit
        let sk := ops.skip c.1 buffer_as scan_offset
        match scanLoop ops buffer_as fuel
            (scan_offset + min buffer_as.data.length sk.2) last1 sk.1 with
        | none => none
        | some (em, l2, s2, o2) =>
          some ((if hit then [scan_offset] else []) ++ em, l2, s2, o2)
    else some ([], last_reported_hit, st, scan_offset)

/-- The physical-read side of the address space
(`self.address_space.phys_base.read(phys_offset, length)`), plus
`get_address_ranges`.  Modelled from the spec §6: ranges are
`(virt_start, phys_start, length)` triples and reads return exactly
`length` bytes. -/
structure AddressSpace where
  get_address_ranges : Nat → Nat → List (Nat × Nat × Nat)
  read : Nat → Nat → Str

/-- One chunk set-up (scan.py lines 398-423): reset the overlap on a gap,
clamp the chunk to the range, the block size and the scan end, read the
chunk and prepend the overlap, and compute the carried-over overlap bytes.
Returns the buffer, the overlap for the next chunk and the new
`chunk_end`. -/
def chunkStep (BLOCKSIZE : Nat) (read : Nat → Nat → Str) (self_overlap : Nat)
    (range_start phys_start range_end start end_ : Nat)
    (chunk_offset : Nat) (ov : Str) (chunk_end : Nat) :
    BufferAddressSpace × Str × Nat :=
  let ov := if chunk_offset ≠ chunk_end then [] else ov
  let chunk_offset := max start chunk_offset
  let chunk_size := min BLOCKSIZE (range_end - chunk_offset)
  let chunk_size := min chunk_size (end_ - chunk_offset)
  let chunk_end := chunk_offset + chunk_size
  let phys_chunk_offset := phys_start + (chunk_offset - range_start)
  let data := ov ++ read phys_chunk_offset chunk_size
  let buffer_as : BufferAddressSpace :=
    { data := data, base_offset := chunk_offset - ov.length }
  let ov := if 0 < self_overlap then data.drop (data.length - self_overlap)
            else ov
  (buffer_as, ov, chunk_end)

/-- The `while chunk_offset < end and chunk_offset < range_end:` loop of
`BaseScanner.scan` over one address range, as a fueled recursion.
Returns the yielded offsets and the final overlap bytes, `chunk_end`,
`last_reported_hit` and constraint state. -/
def scanChunkLoop {σ : Type} (ops : ScannerOps σ) (BLOCKSIZE : Nat)
    (read : Nat → Nat → Str) (self_overlap : Nat)
    (range_start phys_start range_end start end_ : Nat) :
    Nat → Nat → Str → Nat → Int → σ → Nat →
    Option (List Nat × Str × Nat × Int × σ)
  | fuel, chunk_offset, ov, chunk_end, last_reported_hit, st, innerFuel =>
    if chunk_offset < end_ ∧ chunk_offset < range_end then
      match fuel with
      | 0 => none
      | fuel + 1 =>
        let step := chunkStep BLOCKSIZE read self_overlap range_start
          phys_start range_end start end_ chunk_offset ov chunk_end
        match scanLoop ops step.1 innerFuel step.1.base_offset
            last_reported_hit st with
        | none => none
        | some (em, last1, st1, scan_offset) =>
          match scanChunkLoop ops BLOCKSIZE read self_overlap range_start
              phys_start range_end start end_ fuel scan_offset step.2.1
              step.2.2 last1 st1 innerFuel with
          | none => none
          | some (em2, ov2, ce2, l2, st2) => some (em ++ em2, ov2, ce2, l2, st2)
    else some ([], ov, chunk_end, last_reported_hit, st)

/-- The `for run in self.address_space.get_address_ranges(...):` loop of
`BaseScanner.scan`: ranges ending before the start are skipped, a range
starting past the end stops the scan, and the overlap bytes, `chunk_end`,
`last_reported_hit` and constraint state thread through. -/
def scanRuns {σ : Type} (ops : ScannerOps σ) (BLOCKSIZE : Nat)
    (read : Nat → Nat → Str) (self_overlap : Nat) (offset end_ : Nat) :
    List (Nat × Nat × Nat) → Str → Nat → Int → σ → Nat → Nat →
    Option (List Nat × Int × σ)
  | [], _ov, _chunk_end, last_reported_hit, st, _fuel, _innerFuel =>
    some ([], last_reported_hit, st)
  | (range_start, phys_start, length) :: rest, ov, chunk_end,
      last_reported_hit, st, fuel, innerFuel =>
    let range_end := range_start + length
    if range_end < offset then
      scanRuns ops BLOCKSIZE read self_overlap offset end_ rest ov chunk_end
        last_reported_hit st fuel innerFuel
    else if end_ < range_start then some ([], last_reported_hit, st)
    else
      let start := max range_start offset
      match scanChunkLoop ops BLOCKSIZE read self_overlap range_start
          phys_start range_end start end_ fuel start ov chunk_end
          last_reported_hit st innerFuel with
      | none => none
      | some (em, ov1, ce1, l1, st1) =>
        match scanRuns ops BLOCKSIZE read self_overlap offset end_ rest ov1
            ce1 l1 st1 fuel innerFuel with
        | none => none
        | some (em2, l2, st2) => some (em ++ em2, l2, st2)

/-- Python `maxlen or 2**64` from `BaseScanner.scan`: both a missing and a
zero `maxlen` become `2^64`. -/
def maxlenOr : Option Nat → Nat
  | none => 2 ^ 64
  | some m => if m = 0 then 2 ^ 64 else m

/-- `BaseScanner.scan(offset, maxlen)`: the whole generator, returning the
list of yielded offsets (with the final `last_reported_hit` and
constraint state); `none` when the fuel runs out.  `SCAN_BLOCKSIZE` is
modelled from the spec §6 (the repository's `rekall/constants.py` is not
part of the sources) as an explicit parameter. -/
def BaseScanner.scan {σ : Type} (ops : ScannerOps σ) (BLOCKSIZE : Nat)
    (address_space : AddressSpace) (self_overlap : Nat) (st : σ)
    (offset : Nat) (maxlen : Option Nat) (fuel innerFuel : Nat) :
    Option (List Nat × Int × σ) :=
  let maxlen := maxlenOr maxlen
  let end_ := offset + maxlen
  scanRuns ops BLOCKSIZE address_space.read self_overlap offset end_
    (address_space.get_address_ranges offset end_) [] 0 (-1) st fuel innerFuel

/-- `MultiStringScanner.check_addr` / `.skip`: both dispatch to the single
`MultiStringFinderCheck`; a hit is reported when the returned value is
truthy (a nonempty needle). -/
def MultiStringScanner.ops : ScannerOps MultiStringFinderCheck :=
  { check_addr := fun st buf off =>
      let r := st.check buf off
      (r.1, match r.2 with | some s => !s.isEmpty | none => false),
    skip := fun st buf off => st.skip buf off }

/-- `SignatureScanner`: a `MultiStringScanner` whose checker class is
`SignatureScannerCheck`; `skip` does not change the checker state. -/
def SignatureScanner.ops : ScannerOps SignatureScannerCheck :=
  { check_addr := fun st buf off =>
      let r := st.check buf off
      (r.1, match r.2 with | some s => !s.isEmpty | none => false),
    skip := fun st buf off => (st, st.skip buf off) }

/-- One external call to a `SignatureScannerCheck`: either `check` or
`skip`, at some buffer and absolute offset. -/
inductive SigCall where
  | chk (buffer_as : BufferAddressSpace) (offset : Nat)
  | skp (buffer_as : BufferAddressSpace) (offset : Nat)

/-- State after one call: `check` may advance the cursor; `skip` only
reads the state (it returns a number, not a new state). -/
def sigStep (c : SignatureScannerCheck) : SigCall → SignatureScannerCheck
  | .chk buffer_as offset => (c.check buffer_as offset).1
  | .skp _ _ => c

/-- State of a `SignatureScannerCheck` after a sequence of calls. -/
def sigRun (c : SignatureScannerCheck) (calls : List SigCall) :
    SignatureScannerCheck :=
  calls.foldl sigStep c

/-- One external call to a `MultiStringFinderCheck`. -/
inductive MsfCall where
  | chk (buffer_as : BufferAddressSpace) (offset : Nat)
  | skp (buffer_as : BufferAddressSpace) (offset : Nat)

/-- State after one call: both `check` and `skip` may refresh or pop the
cached hit list. -/
def msfStep (c : MultiStringFinderCheck) : MsfCall → MultiStringFinderCheck
  | .chk buffer_as offset => (c.check buffer_as offset).1
  | .skp buffer_as offset => (c.skip buffer_as offset).1

/-- State of a `MultiStringFinderCheck` after a sequence of calls. -/
def msfRun (c : MultiStringFinderCheck) (calls : List MsfCall) :
    MultiStringFinderCheck :=
  calls.foldl msfStep c

/-- Invariant of the dedup guard: the emitted offsets are strictly
increasing, all above the incoming `last_reported_hit`, and at most the
outgoing one. -/
def EmitInv (lastIn : Int) (em : List Nat) (lastOut : Int) : Prop :=
  em.Pairwise (fun a b => a < b)
  ∧ (∀ x ∈ em, lastIn < (x : Int) ∧ (x : Int) ≤ lastOut)
  ∧ lastIn ≤ lastOut

/-! ### Concrete inputs used by witnesses and counterexamples -/

/-- A one-range address space over the four bytes `AAAA`. -/
def aspAAAA : AddressSpace :=
  { get_address_ranges := fun _ _ => [(0, 0, 4)],
    read := fun p n => ((chars "AAAA").drop p).take n }

/-- A fresh signature check for the parts `["AA", "AA"]`. -/
def sigAA : SignatureScannerCheck :=
  { needles := [chars "AA", chars "AA"], current_needle := 0 }

/-- Trivial scanner ops: every offset is a hit, skip is always 1. -/
def opsUnit : ScannerOps Unit :=
  { check_addr := fun st _ _ => (st, true), skip := fun st _ _ => (st, 1) }

/-- A one-range address space over the two bytes `AB`. -/
def aspAB : AddressSpace :=
  { get_address_ranges := fun _ _ => [(0, 0, 2)],
    read := fun p n => ((chars "AB").drop p).take n }

/-- A string check for the needle `AB`. -/
def scAB : StringCheck := { needle := chars "AB" }

/-- A buffer holding `ABAB` at base offset 0. -/
def bufABAB : BufferAddressSpace := { data := chars "ABAB", base_offset := 0 }

/-- A fresh multi-string check for the single needle `AB`. -/
def msfAB : MultiStringFinderCheck :=
  { needles := [chars "AB"], base_offset := none, hits := none }

/-- An exhausted signature check (one part, cursor already past it). -/
def sigDone : SignatureScannerCheck :=
  { needles := [chars "A"], current_needle := 1 }

/-- A skipper that always returns 5. -/
def skipFive : BufferAddressSpace → Nat → Nat := fun _ _ => 5

/-- A fresh multi-string check for the single needle `A`. -/
def msfA : MultiStringFinderCheck :=
  { needles := [chars "A"], base_offset := none, hits := none }

/-- A buffer holding `ABA` at base offset 0. -/
def bufABA : BufferAddressSpace := { data := chars "ABA", base_offset := 0 }

/-! ### Properties of `startswith` and `strFind` -/

theorem startswith_false_of_lt (data needle : Str) (m : Nat)
    (h : data.length < m) : startswith data needle m = false := by
  unfold startswith
  have : decide (m ≤ data.length) = false := by simp; omega
  rw [this, Bool.false_and]

theorem findFrom_none (data needle : Str) :
    ∀ steps i, findFrom data needle i steps = none →
      ∀ m, i ≤ m → m < i + steps → startswith data needle m = false := by
  intro steps
  induction steps with
  | zero => intro i _ m h1 h2; omega
  | succ k ih =>
    intro i h m h1 h2
    unfold findFrom at h
    by_cases hs : startswith data needle i
    · simp [hs] at h
    · rw [if_neg hs] at h
      rcases Nat.eq_or_lt_of_le h1 with he | hlt
      · subst he; exact Bool.eq_false_iff.mpr hs
      · exact ih (i + 1) h m hlt (by omega)

theorem findFrom_some (data needle : Str) :
    ∀ steps i j, findFrom data needle i steps = some j →
      startswith data needle j = true ∧ i ≤ j ∧
        ∀ m, i ≤ m → m < j → startswith data needle m = false := by
  intro steps
  induction steps with
  | zero => intro i j h; exact absurd h (by simp [findFrom])
  | succ k ih =>
    intro i j h
    unfold findFrom at h
    by_cases hs : startswith data needle i
    · rw [if_pos hs] at h
      obtain rfl : i = j := by injection h
      exact ⟨hs, Nat.le_refl _, fun m h1 h2 => by omega⟩
    · rw [if_neg hs] at h
      obtain ⟨hj, hij, hmin⟩ := ih (i + 1) j h
      refine ⟨hj, by omega, fun m h1 h2 => ?_⟩
      rcases Nat.eq_or_lt_of_le h1 with he | hlt
      · subst he; exact Bool.eq_false_iff.mpr hs
      · exact hmin m hlt h2

theorem strFind_none (data needle : Str) (start : Nat)
    (h : strFind data needle start = none) :
    ∀ m, start ≤ m → startswith data needle m = false := by
  intro m hm
  by_cases hml : data.length < m
  · exact startswith_false_of_lt data needle m hml
  · exact findFrom_none data needle (data.length + 1 - start) start h m hm
      (by omega)

theorem strFind_some (data needle : Str) (start j : Nat)
    (h : strFind data needle start = some j) :
    startswith data needle j = true ∧ start ≤ j ∧
      ∀ m, start ≤ m → m < j → startswith data needle m = false :=
  findFrom_some data needle (data.length + 1 - start) start j h

/-! ### Aggregated skip -/

theorem foldl_max_shift {α : Type} (g : α → Nat) :
    ∀ (l : List α) (i : Nat),
      l.foldl (fun a x => max a (g x)) i
        = max i (l.foldl (fun a x => max a (g x)) 0) := by
  intro l
  induction l with
  | nil => intro i; simp
  | cons x xs ih =>
    intro i
    simp only [List.foldl_cons]
    rw [ih (max i (g x)), ih (max 0 (g x))]
    omega

theorem baseScanner_skip_pos (skippers : List (BufferAddressSpace → Nat → Nat))
    (buffer_as : BufferAddressSpace) (offset : Nat) :
    1 ≤ BaseScanner.skip skippers buffer_as offset := by
  unfold BaseScanner.skip
  rw [foldl_max_shift (fun s => s buffer_as offset) skippers 1]
  exact Nat.le_max_left 1 _

/-! ### Claim theorems -/

/-- C7 (counterexample): the claim says the base check's default `skip`
returns 1; at a concrete buffer and offset it returns 0. -/
theorem scannerCheck_default_skip_ne_one :
    ScannerCheck.skip ⟨⟩ { data := chars "A", base_offset := 0 } 0 ≠ 1 := by
  decide

/-- C7 (amended): the default `skip` of the base check class returns 0
for every buffer and offset; the floor of 1 is applied by the scanner's
skip aggregation `BaseScanner.skip`. -/
theorem scannerCheck_default_skip_zero :
    (∀ (c : ScannerCheck) (buffer_as : BufferAddressSpace) (offset : Nat),
        c.skip buffer_as offset = 0)
    ∧ (∀ (skippers : List (BufferAddressSpace → Nat → Nat))
        (buffer_as : BufferAddressSpace) (offset : Nat),
        1 ≤ BaseScanner.skip skippers buffer_as offset) :=
  ⟨fun _ _ _ => rfl, baseScanner_skip_pos⟩

/-- C8 (counterexample): the claim says `window_size` defaults to 1024;
constructing a scanner without it yields 8. -/
theorem window_size_default_ne_1024 :
    (BaseScanner.init none).window_size ≠ 1024 := by
  decide

/-- C8 (amended): `window_size` defaults to 8 when not supplied; the
inter-chunk overlap actually used by `scan` is the separate class
attribute `overlap`, which defaults to 1024 bytes. -/
theorem window_size_default_eight :
    (BaseScanner.init none).window_size = 8 ∧ BaseScanner.overlap = 1024 :=
  ⟨rfl, rfl⟩

/-- C9: constructing a `MultiStringFinderCheck` or a
`SignatureScannerCheck` with a missing or empty needle list fails at
construction time with a `RuntimeError` surfaced to the caller. -/
theorem needle_init_requires_nonempty :
    MultiStringFinderCheck.init none
      = Except.error "No needles provided to search."
    ∧ MultiStringFinderCheck.init (some [])
      = Except.error "No needles provided to search."
    ∧ SignatureScannerCheck.init none
      = Except.error "No needles provided to search."
    ∧ SignatureScannerCheck.init (some [])
      = Except.error "No needles provided to search." :=
  ⟨rfl, rfl, rfl, rfl⟩

/-- C10: `scan` with `maxlen = 0` behaves exactly like `scan` with
`maxlen` omitted: both normalise `maxlen` to `2^64`, so the scan end
becomes `offset + 2^64`. -/
theorem scan_maxlen_zero_scans_everything :
    maxlenOr (some 0) = 2 ^ 64 ∧ maxlenOr none = 2 ^ 64 ∧
    ∀ (σ : Type) (ops : ScannerOps σ) (BLOCKSIZE : Nat)
      (address_space : AddressSpace) (self_overlap : Nat) (st : σ)
      (offset fuel innerFuel : Nat),
      BaseScanner.scan ops BLOCKSIZE address_space self_overlap st offset
          (some 0) fuel innerFuel
        = BaseScanner.scan ops BLOCKSIZE address_space self_overlap st offset
          none fuel innerFuel :=
  ⟨rfl, rfl, fun _ _ _ _ _ _ _ _ _ => rfl⟩

theorem stringCheck_check_eq (c : StringCheck) (buf : BufferAddressSpace) (j : Nat) :
    c.check buf j = startswith buf.data c.needle (j - buf.base_offset) := rfl

theorem stringCheck_skip_sound (c : StringCheck) (buf : BufferAddressSpace)
    (off j : Nat) (hbase : buf.base_offset ≤ off) (h1 : off < j)
    (h2 : j < off + c.skip buf off) : c.check buf j = false := by
  rw [stringCheck_check_eq]
  cases hf : strFind buf.data c.needle (off - buf.base_offset + 1) with
  | some dindex =>
    simp only [StringCheck.skip, BufferAddressSpace.get_buffer_offset, hf] at h2
    obtain ⟨_, hge, hmin⟩ := strFind_some _ _ _ _ hf
    exact hmin (j - buf.base_offset) (by omega) (by omega)
  | none =>
    simp only [StringCheck.skip, BufferAddressSpace.get_buffer_offset, hf] at h2
    exact strFind_none _ _ _ hf _ (by omega)

theorem sigCheck_skip_sound (c : SignatureScannerCheck)
    (buf : BufferAddressSpace) (off j : Nat) (hbase : buf.base_offset ≤ off)
    (h1 : off + c.correction ≤ j) (h2 : j < off + c.skip buf off) :
    (c.check buf j).2 = none := by
  by_cases hex : c.needles.length ≤ c.current_needle
  · simp [SignatureScannerCheck.check, hex]
  · cases hf : strFind buf.data (c.needles.getD c.current_needle [])
        (off - buf.base_offset + c.correction) with
    | some dindex =>
      simp only [SignatureScannerCheck.skip, BufferAddressSpace.get_buffer_offset,
        if_neg hex, hf] at h2
      obtain ⟨_, hge, hmin⟩ := strFind_some _ _ _ _ hf
      have hsw : startswith buf.data (c.needles.getD c.current_needle [])
          (j - buf.base_offset) = false :=
        hmin (j - buf.base_offset) (by omega) (by omega)
      simp [SignatureScannerCheck.check, hex, BufferAddressSpace.get_buffer_offset,
        ← List.getD_eq_getElem?_getD, hsw]
    | none =>
      simp only [SignatureScannerCheck.skip, BufferAddressSpace.get_buffer_offset,
        if_neg hex, hf] at h2
      have hsw : startswith buf.data (c.needles.getD c.current_needle [])
          (j - buf.base_offset) = false :=
        strFind_none _ _ _ hf _ (by omega)
      simp [SignatureScannerCheck.check, hex, BufferAddressSpace.get_buffer_offset,
        ← List.getD_eq_getElem?_getD, hsw]

theorem startswith_le (data needle : Str) (p : Nat)
    (h : startswith data needle p = true) : p ≤ data.length := by
  unfold startswith at h
  exact of_decide_eq_true (Bool.and_elim_left h)

theorem mem_acoraHits (needles : List Str) (data : Str) (n : Str) (p : Nat) :
    (n, p) ∈ acoraHits needles data
      ↔ n ∈ needles ∧ startswith data n p = true := by
  unfold acoraHits hitsAt
  simp only [List.mem_flatten, List.mem_map, List.mem_range, List.mem_filter]
  constructor
  · rintro ⟨l, ⟨i, hi, rfl⟩, hmem⟩
    rw [List.mem_map] at hmem
    obtain ⟨m, hm, he⟩ := hmem
    rw [List.mem_filter] at hm
    have h1 : m = n := congrArg Prod.fst he
    have h2 : i = p := congrArg Prod.snd he
    subst h1; subst h2
    exact ⟨hm.1, hm.2⟩
  · rintro ⟨hn, hs⟩
    refine ⟨_, ⟨p, by have := startswith_le data n p hs; omega, rfl⟩, ?_⟩
    rw [List.mem_map]
    exact ⟨n, List.mem_filter.mpr ⟨hn, hs⟩, rfl⟩

theorem mem_insertDesc (x y : Str × Nat) (l : List (Str × Nat)) :
    x ∈ insertDesc y l ↔ x = y ∨ x ∈ l := by
  induction l with
  | nil => simp [insertDesc]
  | cons z zs ih =>
    unfold insertDesc
    by_cases h : y.2 ≤ z.2
    · simp only [if_pos h, List.mem_cons, ih]
      tauto
    · simp [if_neg h]

theorem mem_sortDesc_aux (x : Str × Nat) :
    ∀ (l acc : List (Str × Nat)),
      x ∈ l.foldl (fun a y => insertDesc y a) acc ↔ x ∈ acc ∨ x ∈ l := by
  intro l
  induction l with
  | nil => simp
  | cons z zs ih =>
    intro acc
    simp only [List.foldl_cons, ih (insertDesc z acc), mem_insertDesc,
      List.mem_cons]
    tauto

theorem mem_sortDesc (x : Str × Nat) (l : List (Str × Nat)) :
    x ∈ sortDesc l ↔ x ∈ l := by
  unfold sortDesc
  rw [mem_sortDesc_aux]
  simp

theorem pairwise_insertDesc (x : Str × Nat) (l : List (Str × Nat))
    (h : l.Pairwise (fun a b => b.2 ≤ a.2)) :
    (insertDesc x l).Pairwise (fun a b => b.2 ≤ a.2) := by
  induction l with
  | nil => simp [insertDesc]
  | cons z zs ih =>
    rw [List.pairwise_cons] at h
    unfold insertDesc
    by_cases hle : x.2 ≤ z.2
    · rw [if_pos hle, List.pairwise_cons]
      refine ⟨fun y hy => ?_, ih h.2⟩
      rcases (mem_insertDesc y x zs).mp hy with rfl | hyz
      · exact hle
      · exact h.1 y hyz
    · rw [if_neg hle, List.pairwise_cons]
      refine ⟨fun y hy => ?_, List.pairwise_cons.mpr h⟩
      rcases List.mem_cons.mp hy with rfl | hyz
      · omega
      · have := h.1 y hyz; omega

theorem pairwise_sortDesc_aux :
    ∀ (l acc : List (Str × Nat)),
      acc.Pairwise (fun a b => b.2 ≤ a.2) →
      (l.foldl (fun a y => insertDesc y a) acc).Pairwise (fun a b => b.2 ≤ a.2) := by
  intro l
  induction l with
  | nil => intro acc h; simpa
  | cons z zs ih =>
    intro acc h
    exact ih (insertDesc z acc) (pairwise_insertDesc z acc h)

theorem pairwise_sortDesc (l : List (Str × Nat)) :
    (sortDesc l).Pairwise (fun a b => b.2 ≤ a.2) :=
  pairwise_sortDesc_aux l [] (by simp)

theorem computeHits_desc (needles : List Str) (data : Str) :
    (computeHits needles data).Pairwise (fun a b => b.2 ≤ a.2) :=
  pairwise_sortDesc _

theorem mem_computeHits (needles : List Str) (data : Str) (n : Str) (p : Nat) :
    (n, p) ∈ computeHits needles data
      ↔ n ∈ needles ∧ startswith data n p = true := by
  unfold computeHits
  rw [mem_sortDesc, mem_acoraHits]

theorem msfCheckLoopRev_sublist (d : Nat) :
    ∀ (l : List (Str × Nat)), List.Sublist (msfCheckLoopRev l d).1 l := by
  intro l
  induction l with
  | nil => simp [msfCheckLoopRev]
  | cons x rest ih =>
    obtain ⟨s, off⟩ := x
    unfold msfCheckLoopRev
    by_cases he : off = d
    · simp only [if_pos he]
      exact List.sublist_cons_self _ _
    · by_cases hlt : off < d
      · simp only [if_neg he, if_pos hlt]
        exact ih.trans (List.sublist_cons_self _ _)
      · simp only [if_neg he, if_neg hlt]
        exact List.Sublist.refl _

theorem msfCheckLoopRev_keeps (d : Nat) :
    ∀ (l : List (Str × Nat)) (x : Str × Nat), x ∈ l → d < x.2 →
      x ∈ (msfCheckLoopRev l d).1 := by
  intro l
  induction l with
  | nil => intro x hx; exact absurd hx (by simp)
  | cons y rest ih =>
    obtain ⟨s, off⟩ := y
    intro x hx hd
    unfold msfCheckLoopRev
    by_cases he : off = d
    · simp only [if_pos he]
      rcases List.mem_cons.mp hx with rfl | hxr
      · simp at hd; omega
      · exact hxr
    · by_cases hlt : off < d
      · simp only [if_neg he, if_pos hlt]
        rcases List.mem_cons.mp hx with rfl | hxr
        · simp at hd; omega
        · exact ih x hxr hd
      · simp only [if_neg he, if_neg hlt]
        exact hx

theorem msfSkipLoopRev_sublist (d : Nat) :
    ∀ (l : List (Str × Nat)) (o e : Nat), List.Sublist (msfSkipLoopRev l d o e).1 l := by
  intro l
  induction l with
  | nil => intro o e; simp [msfSkipLoopRev]
  | cons y rest ih =>
    obtain ⟨s, hoff⟩ := y
    intro o e
    unfold msfSkipLoopRev
    by_cases hlt : hoff < d
    · simp only [if_pos hlt]
      exact (ih hoff e).trans (List.sublist_cons_self _ _)
    · simp only [if_neg hlt]
      exact List.Sublist.refl _

theorem msfSkipLoopRev_bound (d : Nat) :
    ∀ (l : List (Str × Nat)) (o e : Nat),
      l.Pairwise (fun a b => a.2 ≤ b.2) →
      ∀ x ∈ l, x.2 < d ∨ d + (msfSkipLoopRev l d o e).2 ≤ x.2 := by
  intro l
  induction l with
  | nil => intro o e _ x hx; exact absurd hx (by simp)
  | cons y rest ih =>
    obtain ⟨s, hoff⟩ := y
    intro o e hp x hx
    rw [List.pairwise_cons] at hp
    unfold msfSkipLoopRev
    by_cases hlt : hoff < d
    · simp only [if_pos hlt]
      rcases List.mem_cons.mp hx with rfl | hxr
      · left; exact hlt
      · exact ih hoff e hp.2 x hxr
    · simp only [if_neg hlt]
      rcases List.mem_cons.mp hx with rfl | hxr
      · right; simp; omega
      · right
        have := hp.1 x hxr
        simp
        omega

theorem msf_fresh_skip_sound (c0 : MultiStringFinderCheck)
    (buf : BufferAddressSpace) (off j : Nat)
    (hfresh : c0.base_offset ≠ some buf.base_offset)
    (hbase : buf.base_offset ≤ off) (h1 : off < j)
    (h2 : j < off + ((c0.check buf off).1.skip buf off).2)
    (n : Str) (hn : n ∈ c0.needles) :
    startswith buf.data n (j - buf.base_offset) = false := by
  by_contra hne
  rw [Bool.not_eq_false] at hne
  have hc1 : (c0.check buf off).1
      = { needles := c0.needles, base_offset := some buf.base_offset,
          hits := some ((msfCheckLoopRev
            (computeHits c0.needles buf.data).reverse
            (off - buf.base_offset)).1.reverse) } := by
    unfold MultiStringFinderCheck.check
    rw [if_pos (Ne.symm hfresh)]
  have hskip : ((c0.check buf off).1.skip buf off).2
      = (msfSkipLoopRev
          (msfCheckLoopRev (computeHits c0.needles buf.data).reverse
            (off - buf.base_offset)).1
          (off - buf.base_offset) off buf.end').2 := by
    rw [hc1]
    unfold MultiStringFinderCheck.skip
    simp only [List.reverse_reverse]
  rw [hskip] at h2
  have hmemH : (n, j - buf.base_offset) ∈ computeHits c0.needles buf.data :=
    (mem_computeHits _ _ _ _).mpr ⟨hn, hne⟩
  have hmemR := List.mem_reverse.mpr hmemH
  have hgt : off - buf.base_offset < j - buf.base_offset := by omega
  have hmem1 := msfCheckLoopRev_keeps (off - buf.base_offset) _ _ hmemR hgt
  have hascR : (computeHits c0.needles buf.data).reverse.Pairwise
      (fun a b => a.2 ≤ b.2) := by
    rw [List.pairwise_reverse]
    exact computeHits_desc _ _
  have hasc1 := List.Pairwise.sublist
    (msfCheckLoopRev_sublist (off - buf.base_offset) _) hascR
  rcases msfSkipLoopRev_bound (off - buf.base_offset) _ off buf.end' hasc1 _
      hmem1 with hlt | hge
  · simp at hlt; omega
  · simp at hge; omega

/-- C2 (counterexample): the claim quantifies over the half-open interval
`[abs_off, abs_off + skip)`, which contains `abs_off` itself.  For a
`StringCheck` with needle `AB` over the buffer `ABAB` at absolute offset
0, `skip` returns 2, yet offset 0 (inside `[0, 2)`) is an offset at which
the check alone reports a match. -/
theorem skip_interval_contains_match :
    StringCheck.skip scAB bufABAB 0 = 2
    ∧ StringCheck.check scAB bufABAB 0 = true := by
  decide

/-- C2 (amended): skip soundness holds away from the already-checked
offset.  For `StringCheck`, no offset strictly between `abs_off` and
`abs_off + skip` is a match.  For `SignatureScannerCheck`, no offset in
`[abs_off + correction, abs_off + skip)` is a match of the current state
(overlaps of the previous part, below the correction, may be skipped).
For `MultiStringFinderCheck` called in the scanner's check-then-skip
sequence on a buffer its cache does not yet cover, no offset strictly
between `abs_off` and `abs_off + skip` is the start of any needle. -/
theorem check_skip_soundness :
    (∀ (c : StringCheck) (buf : BufferAddressSpace) (off j : Nat),
        buf.base_offset ≤ off → off < j → j < off + c.skip buf off →
        c.check buf j = false)
    ∧ (∀ (c : SignatureScannerCheck) (buf : BufferAddressSpace) (off j : Nat),
        buf.base_offset ≤ off → off + c.correction ≤ j →
        j < off + c.skip buf off → (c.check buf j).2 = none)
    ∧ (∀ (c0 : MultiStringFinderCheck) (buf : BufferAddressSpace) (off j : Nat),
        c0.base_offset ≠ some buf.base_offset → buf.base_offset ≤ off →
        off < j → j < off + ((c0.check buf off).1.skip buf off).2 →
        ∀ n ∈ c0.needles,
          startswith buf.data n (j - buf.base_offset) = false) :=
  ⟨stringCheck_skip_sound, sigCheck_skip_sound,
    fun c0 buf off j hf hb h1 h2 n hn =>
      msf_fresh_skip_sound c0 buf off j hf hb h1 h2 n hn⟩

/-- C2 witness: each part of the amended skip soundness applied at a
concrete input. -/
theorem check_skip_soundness_witness :
    StringCheck.check scAB bufABAB 1 = false
    ∧ (sigAA.check bufABAB 1).2 = none
    ∧ startswith bufABAB.data (chars "AB") (1 - bufABAB.base_offset) = false :=
  ⟨check_skip_soundness.1 scAB bufABAB 0 1 (by decide) (by decide) (by decide),
   check_skip_soundness.2.1 sigAA bufABAB 0 1 (by decide) (by decide)
     (by decide),
   check_skip_soundness.2.2 msfAB bufABAB 0 1 (by decide) (by decide)
     (by decide) (by decide) (chars "AB") (by decide)⟩

theorem advance_formula (skippers : List (BufferAddressSpace → Nat → Nat))
    (buf : BufferAddressSpace) (s : Nat) (hbase : buf.base_offset ≤ s)
    (hlt : s < buf.end') :
    min buf.data.length (BaseScanner.skip skippers buf s)
      = max 1 (min buf.data.length
          (skippers.foldl (fun a f => max a (f buf s)) 0)) := by
  have hlen : 1 ≤ buf.data.length := by
    unfold BufferAddressSpace.end' at hlt; omega
  unfold BaseScanner.skip
  rw [foldl_max_shift (fun f => f buf s) skippers 1]
  generalize (skippers.foldl (fun a f => max a (f buf s)) 0) = M
  omega

theorem scanLoop_total {σ : Type} (ops : ScannerOps σ)
    (buf : BufferAddressSpace)
    (hsk : ∀ st off, 1 ≤ (ops.skip st buf off).2) :
    ∀ (fuel so : Nat) (last : Int) (st : σ), buf.base_offset ≤ so →
      buf.end' - so ≤ fuel →
      (scanLoop ops buf fuel so last st).isSome = true := by
  intro fuel
  induction fuel with
  | zero =>
    intro so last st hb hf
    unfold scanLoop
    rw [if_neg (by omega)]
    rfl
  | succ k ih =>
    intro so last st hb hf
    unfold scanLoop
    by_cases hlt : so < buf.end'
    · rw [if_pos hlt]
      have hlen : 1 ≤ buf.data.length := by
        unfold BufferAddressSpace.end' at hlt; omega
      have hadv : 1 ≤ min buf.data.length
          (ops.skip (ops.check_addr st buf so).1 buf so).2 :=
        le_min hlen (hsk (ops.check_addr st buf so).1 so)
      have hrec := ih
        (so + min buf.data.length (ops.skip (ops.check_addr st buf so).1 buf so).2)
        (if (ops.check_addr st buf so).2 && decide (last < (so : Int))
          then (so : Int) else last)
        (ops.skip (ops.check_addr st buf so).1 buf so).1
        (by omega) (by omega)
      cases hr : scanLoop ops buf k
          (so + min buf.data.length (ops.skip (ops.check_addr st buf so).1 buf so).2)
          (if (ops.check_addr st buf so).2 && decide (last < (so : Int))
            then (so : Int) else last)
          (ops.skip (ops.check_addr st buf so).1 buf so).1 with
      | none => rw [hr] at hrec; exact absurd hrec (by simp)
      | some r =>
        obtain ⟨em, l2, s2, o2⟩ := r
        simp only [hr]
        rfl
    · rw [if_neg hlt]
      rfl

/-- C3: in the scanner's inner loop the cursor advance is
`min(len(buf), BaseScanner.skip)`, which for any cursor position inside
the buffer equals `max(1, min(len(buf), max over skippers of skip))`; it
is at least 1 and at most `len(buf)`, and consequently the per-chunk loop
terminates (any fuel covering the remaining bytes suffices when the
aggregated skip is at least 1, as `BaseScanner.skip` always is). -/
theorem scan_advance_and_termination :
    (∀ (skippers : List (BufferAddressSpace → Nat → Nat))
        (buf : BufferAddressSpace) (s : Nat),
        buf.base_offset ≤ s → s < buf.end' →
        min buf.data.length (BaseScanner.skip skippers buf s)
            = max 1 (min buf.data.length
                (skippers.foldl (fun a f => max a (f buf s)) 0))
          ∧ 1 ≤ min buf.data.length (BaseScanner.skip skippers buf s)
          ∧ min buf.data.length (BaseScanner.skip skippers buf s)
              ≤ buf.data.length)
    ∧ (∀ (σ : Type) (ops : ScannerOps σ) (buf : BufferAddressSpace),
        (∀ st off, 1 ≤ (ops.skip st buf off).2) →
        ∀ (fuel so : Nat) (last : Int) (st : σ), buf.base_offset ≤ so →
          buf.end' - so ≤ fuel →
          (scanLoop ops buf fuel so last st).isSome = true) := by
  constructor
  · intro skippers buf s hb hlt
    have hlen : 1 ≤ buf.data.length := by
      unfold BufferAddressSpace.end' at hlt; omega
    exact ⟨advance_formula skippers buf s hb hlt,
      le_min hlen (baseScanner_skip_pos skippers buf s),
      Nat.min_le_left _ _⟩
  · intro σ ops buf hsk
    exact scanLoop_total ops buf hsk

/-- C3 witness: the advance formula at a concrete buffer, position and
skipper list, and the inner loop completing on a concrete buffer. -/
theorem scan_advance_and_termination_witness :
    (min bufABAB.data.length (BaseScanner.skip [skipFive] bufABAB 2)
        = max 1 (min bufABAB.data.length
            ([skipFive].foldl (fun a f => max a (f bufABAB 2)) 0))
      ∧ 1 ≤ min bufABAB.data.length (BaseScanner.skip [skipFive] bufABAB 2)
      ∧ min bufABAB.data.length (BaseScanner.skip [skipFive] bufABAB 2)
          ≤ bufABAB.data.length)
    ∧ (scanLoop opsUnit bufABAB 4 0 (-1) ()).isSome = true :=
  ⟨scan_advance_and_termination.1 [skipFive] bufABAB 2 (by decide) (by decide),
   scan_advance_and_termination.2 Unit opsUnit bufABAB
     (fun _ _ => Nat.le_refl 1) 4 0 (-1) () (by decide) (by decide)⟩

theorem EmitInv_nil (last : Int) : EmitInv last [] last :=
  ⟨List.Pairwise.nil, fun x hx => absurd hx (by simp), le_refl _⟩

theorem EmitInv_append {a b c : Int} {em1 em2 : List Nat}
    (h1 : EmitInv a em1 b) (h2 : EmitInv b em2 c) :
    EmitInv a (em1 ++ em2) c := by
  obtain ⟨p1, m1, l1⟩ := h1
  obtain ⟨p2, m2, l2⟩ := h2
  refine ⟨List.pairwise_append.mpr ⟨p1, p2, ?_⟩, ?_, by omega⟩
  · intro x hx y hy
    have hxb := (m1 x hx).2
    have hby := (m2 y hy).1
    omega
  · intro x hx
    rcases List.mem_append.mp hx with hx1 | hx2
    · have := m1 x hx1; omega
    · have := m2 x hx2; omega

theorem scanLoop_inv {σ : Type} (ops : ScannerOps σ) (buf : BufferAddressSpace) :
    ∀ (fuel so : Nat) (last : Int) (st : σ) (em : List Nat) (l2 : Int)
      (s2 : σ) (o2 : Nat),
      scanLoop ops buf fuel so last st = some (em, l2, s2, o2) →
      EmitInv last em l2 := by
  intro fuel
  induction fuel with
  | zero =>
    intro so last st em l2 s2 o2 h
    unfold scanLoop at h
    by_cases hlt : so < buf.end'
    · rw [if_pos hlt] at h; exact absurd h (by simp)
    · rw [if_neg hlt] at h
      obtain ⟨rfl, rfl, _, _⟩ : em = [] ∧ l2 = last ∧ s2 = st ∧ o2 = so := by
        injection h with h'
        injection h' with e1 h'
        injection h' with e2 h'
        injection h' with e3 e4
        exact ⟨e1.symm, e2.symm, e3.symm, e4.symm⟩
      exact EmitInv_nil _
  | succ k ih =>
    intro so last st em l2 s2 o2 h
    unfold scanLoop at h
    by_cases hlt : so < buf.end'
    · rw [if_pos hlt] at h
      simp only [] at h
      by_cases hhit : ((ops.check_addr st buf so).2
          && decide (last < (so : Int))) = true
      · rw [if_pos hhit, if_pos hhit] at h
        cases hr : scanLoop ops buf k
            (so + min buf.data.length
              (ops.skip (ops.check_addr st buf so).1 buf so).2)
            ((so : Int)) (ops.skip (ops.check_addr st buf so).1 buf so).1 with
        | none => rw [hr] at h; exact absurd h (by simp)
        | some r =>
          obtain ⟨em', l2', s2', o2'⟩ := r
          rw [hr] at h
          obtain ⟨rfl, rfl, _, _⟩ :
              em = so :: em' ∧ l2 = l2' ∧ s2 = s2' ∧ o2 = o2' := by
            injection h with h'
            injection h' with e1 h'
            injection h' with e2 h'
            injection h' with e3 e4
            exact ⟨e1.symm, e2.symm, e3.symm, e4.symm⟩
          have hlast : last < (so : Int) := by
            have := Bool.and_elim_right hhit
            exact of_decide_eq_true this
          have hone : EmitInv last [so] (so : Int) :=
            ⟨by simp, fun x hx => by
              rcases List.mem_singleton.mp hx with rfl
              exact ⟨hlast, le_refl _⟩, le_of_lt hlast⟩
          exact EmitInv_append hone (ih _ _ _ _ _ _ _ hr)
      · rw [if_neg hhit, if_neg hhit] at h
        cases hr : scanLoop ops buf k
            (so + min buf.data.length
              (ops.skip (ops.check_addr st buf so).1 buf so).2)
            last (ops.skip (ops.check_addr st buf so).1 buf so).1 with
        | none => rw [hr] at h; exact absurd h (by simp)
        | some r =>
          obtain ⟨em', l2', s2', o2'⟩ := r
          rw [hr] at h
          obtain ⟨rfl, rfl, _, _⟩ :
              em = em' ∧ l2 = l2' ∧ s2 = s2' ∧ o2 = o2' := by
            injection h with h'
            injection h' with e1 h'
            injection h' with e2 h'
            injection h' with e3 e4
            exact ⟨List.nil_append em' ▸ e1.symm, e2.symm, e3.symm, e4.symm⟩
          exact ih _ _ _ _ _ _ _ hr
    · rw [if_neg hlt] at h
      obtain ⟨rfl, rfl, _, _⟩ : em = [] ∧ l2 = last ∧ s2 = st ∧ o2 = so := by
        injection h with h'
        injection h' with e1 h'
        injection h' with e2 h'
        injection h' with e3 e4
        exact ⟨e1.symm, e2.symm, e3.symm, e4.symm⟩
      exact EmitInv_nil _

theorem scanChunkLoop_inv {σ : Type} (ops : ScannerOps σ) (BLOCKSIZE : Nat)
    (read : Nat → Nat → Str)
    (self_overlap range_start phys_start range_end start end_ : Nat) :
    ∀ (fuel chunk_offset : Nat) (ov : Str) (chunk_end : Nat) (last : Int)
      (st : σ) (innerFuel : Nat) (em : List Nat) (ov2 : Str) (ce2 : Nat)
      (l2 : Int) (st2 : σ),
      scanChunkLoop ops BLOCKSIZE read self_overlap range_start phys_start
          range_end start end_ fuel chunk_offset ov chunk_end last st innerFuel
        = some (em, ov2, ce2, l2, st2) →
      EmitInv last em l2 := by
  intro fuel
  induction fuel with
  | zero =>
    intro co ov ce last st innerFuel em ov2 ce2 l2 st2 h
    unfold scanChunkLoop at h
    by_cases hc : co < end_ ∧ co < range_end
    · rw [if_pos hc] at h; exact absurd h (by simp)
    · rw [if_neg hc] at h
      obtain ⟨rfl, _, _, rfl, _⟩ :
          em = [] ∧ ov2 = ov ∧ ce2 = ce ∧ l2 = last ∧ st2 = st := by
        injection h with h'
        injection h' with e1 h'
        injection h' with e2 h'
        injection h' with e3 h'
        injection h' with e4 e5
        exact ⟨e1.symm, e2.symm, e3.symm, e4.symm, e5.symm⟩
      exact EmitInv_nil _
  | succ k ih =>
    intro co ov ce last st innerFuel em ov2 ce2 l2 st2 h
    unfold scanChunkLoop at h
    by_cases hc : co < end_ ∧ co < range_end
    · rw [if_pos hc] at h
      simp only [] at h
      generalize hstep : chunkStep BLOCKSIZE read self_overlap range_start
        phys_start range_end start end_ co ov ce = stp at h
      obtain ⟨buf1, ov1, ce1⟩ := stp
      simp only [] at h
      cases hr1 : scanLoop ops buf1 innerFuel buf1.base_offset last st with
      | none => rw [hr1] at h; exact absurd h (by simp)
      | some r1 =>
        obtain ⟨em1, last1, st1, so1⟩ := r1
        rw [hr1] at h
        simp only [] at h
        cases hr2 : scanChunkLoop ops BLOCKSIZE read self_overlap range_start
            phys_start range_end start end_ k so1 ov1 ce1 last1 st1
            innerFuel with
        | none => rw [hr2] at h; exact absurd h (by simp)
        | some r2 =>
          obtain ⟨em2, ovr, cer, l2r, st2r⟩ := r2
          rw [hr2] at h
          obtain ⟨rfl, _, _, rfl, _⟩ :
              em = em1 ++ em2 ∧ ov2 = ovr ∧ ce2 = cer ∧ l2 = l2r
                ∧ st2 = st2r := by
            injection h with h'
            injection h' with e1 h'
            injection h' with e2 h'
            injection h' with e3 h'
            injection h' with e4 e5
            exact ⟨e1.symm, e2.symm, e3.symm, e4.symm, e5.symm⟩
          exact EmitInv_append
            (scanLoop_inv ops buf1 innerFuel _ last st em1 last1 st1 so1 hr1)
            (ih _ _ _ _ _ _ _ _ _ _ _ hr2)
    · rw [if_neg hc] at h
      obtain ⟨rfl, _, _, rfl, _⟩ :
          em = [] ∧ ov2 = ov ∧ ce2 = ce ∧ l2 = last ∧ st2 = st := by
        injection h with h'
        injection h' with e1 h'
        injection h' with e2 h'
        injection h' with e3 h'
        injection h' with e4 e5
        exact ⟨e1.symm, e2.symm, e3.symm, e4.symm, e5.symm⟩
      exact EmitInv_nil _

theorem scanRuns_inv {σ : Type} (ops : ScannerOps σ) (BLOCKSIZE : Nat)
    (read : Nat → Nat → Str) (self_overlap offset end_ : Nat) :
    ∀ (runs : List (Nat × Nat × Nat)) (ov : Str) (chunk_end : Nat)
      (last : Int) (st : σ) (fuel innerFuel : Nat) (em : List Nat) (l2 : Int)
      (st2 : σ),
      scanRuns ops BLOCKSIZE read self_overlap offset end_ runs ov chunk_end
          last st fuel innerFuel = some (em, l2, st2) →
      EmitInv last em l2 := by
  intro runs
  induction runs with
  | nil =>
    intro ov ce last st fuel innerFuel em l2 st2 h
    unfold scanRuns at h
    obtain ⟨rfl, rfl, _⟩ : em = [] ∧ l2 = last ∧ st2 = st := by
      injection h with h'
      injection h' with e1 h'
      injection h' with e2 e3
      exact ⟨e1.symm, e2.symm, e3.symm⟩
    exact EmitInv_nil _
  | cons run rest ih =>
    obtain ⟨range_start, phys_start, length⟩ := run
    intro ov ce last st fuel innerFuel em l2 st2 h
    unfold scanRuns at h
    by_cases h1 : range_start + length < offset
    · rw [if_pos h1] at h
      exact ih _ _ _ _ _ _ _ _ _ h
    · rw [if_neg h1] at h
      by_cases h2 : end_ < range_start
      · rw [if_pos h2] at h
        obtain ⟨rfl, rfl, _⟩ : em = [] ∧ l2 = last ∧ st2 = st := by
          injection h with h'
          injection h' with e1 h'
          injection h' with e2 e3
          exact ⟨e1.symm, e2.symm, e3.symm⟩
        exact EmitInv_nil _
      · rw [if_neg h2] at h
        simp only [] at h
        cases hr1 : scanChunkLoop ops BLOCKSIZE read self_overlap range_start
            phys_start (range_start + length) (max range_start offset) end_
            fuel (max range_start offset) ov ce last st innerFuel with
        | none => rw [hr1] at h; exact absurd h (by simp)
        | some r1 =>
          obtain ⟨em1, ov1, ce1, l1, st1⟩ := r1
          rw [hr1] at h
          simp only [] at h
          cases hr2 : scanRuns ops BLOCKSIZE read self_overlap offset end_
              rest ov1 ce1 l1 st1 fuel innerFuel with
          | none => rw [hr2] at h; exact absurd h (by simp)
          | some r2 =>
            obtain ⟨em2, l2r, st2r⟩ := r2
            rw [hr2] at h
            obtain ⟨rfl, rfl, _⟩ :
                em = em1 ++ em2 ∧ l2 = l2r ∧ st2 = st2r := by
              injection h with h'
              injection h' with e1 h'
              injection h' with e2 e3
              exact ⟨e1.symm, e2.symm, e3.symm⟩
            exact EmitInv_append
              (scanChunkLoop_inv ops BLOCKSIZE read self_overlap range_start
                phys_start (range_start + length) (max range_start offset)
                end_ _ _ _ _ _ _ _ _ _ _ _ _ hr1)
              (ih _ _ _ _ _ _ _ _ _ hr2)

/-- C1: over any address space, constraint behaviour and fuel, the
offsets yielded by one `BaseScanner.scan` call are strictly increasing in
absolute offset (so no offset is yielded twice, even inside the overlap
region shared by two consecutive chunks): every yield passes the
`scan_offset > last_reported_hit` guard and raises `last_reported_hit`,
which threads through all chunks and ranges. -/
theorem scan_offsets_strictly_increasing :
    ∀ (σ : Type) (ops : ScannerOps σ) (BLOCKSIZE : Nat)
      (address_space : AddressSpace) (self_overlap : Nat) (st : σ)
      (offset : Nat) (maxlen : Option Nat) (fuel innerFuel : Nat)
      (em : List Nat) (l : Int) (stF : σ),
      BaseScanner.scan ops BLOCKSIZE address_space self_overlap st offset
          maxlen fuel innerFuel = some (em, l, stF) →
      em.Pairwise (fun a b => a < b) := by
  intro σ ops BLOCKSIZE asp self_overlap st offset maxlen fuel innerFuel
    em l stF h
  exact (scanRuns_inv ops BLOCKSIZE asp.read self_overlap offset
    (offset + maxlenOr maxlen) _ _ _ _ _ _ _ _ _ _ h).1

/-- C1 witness: a concrete two-byte scan where both offsets are hits; the
yielded list is strictly increasing. -/
theorem scan_offsets_strictly_increasing_witness :
    BaseScanner.scan opsUnit 1024 aspAB 1024 () 0 (some 2) 5 10
      = some ([0, 1], 1, ())
    ∧ ([0, 1] : List Nat).Pairwise (fun a b => a < b) :=
  ⟨rfl, scan_offsets_strictly_increasing Unit opsUnit 1024 aspAB 1024 () 0
    (some 2) 5 10 [0, 1] 1 () rfl⟩

theorem sigStep_facts (c : SignatureScannerCheck) (k : SigCall) :
    (sigStep c k).needles = c.needles
    ∧ ((sigStep c k).current_needle = c.current_needle
        ∨ ((sigStep c k).current_needle = c.current_needle + 1
            ∧ c.current_needle < c.needles.length)) := by
  cases k with
  | skp buf off => exact ⟨rfl, Or.inl rfl⟩
  | chk buf off =>
    simp only [sigStep]
    unfold SignatureScannerCheck.check
    by_cases hex : c.needles.length ≤ c.current_needle
    · rw [if_pos hex]
      exact ⟨rfl, Or.inl rfl⟩
    · rw [if_neg hex]
      by_cases hs : startswith buf.data (c.needles.getD c.current_needle [])
          (buf.get_buffer_offset off) = true
      · rw [if_pos hs]
        exact ⟨rfl, Or.inr ⟨rfl, by omega⟩⟩
      · rw [if_neg hs]
        exact ⟨rfl, Or.inl rfl⟩

theorem sigRun_facts (calls : List SigCall) :
    ∀ c : SignatureScannerCheck,
      (sigRun c calls).needles = c.needles
      ∧ c.current_needle ≤ (sigRun c calls).current_needle
      ∧ (sigRun c calls).current_needle
          ≤ max c.current_needle c.needles.length := by
  induction calls with
  | nil => intro c; exact ⟨rfl, le_refl _, le_max_left _ _⟩
  | cons k ks ih =>
    intro c
    have hrun : sigRun c (k :: ks) = sigRun (sigStep c k) ks := by
      simp [sigRun, List.foldl_cons]
    obtain ⟨hn, hcur⟩ := sigStep_facts c k
    obtain ⟨ihn, ihm, ihb⟩ := ih (sigStep c k)
    rw [hrun]
    refine ⟨ihn.trans hn, ?_, ?_⟩
    · rcases hcur with he | ⟨he, _⟩ <;> omega
    · rw [hn] at ihb
      rcases hcur with he | ⟨he, hlt⟩ <;> omega

/-- C4: over any sequence of `check` and `skip` calls, a
`SignatureScannerCheck`'s cursor never decreases and stays at most `N`
(the needle count, which the calls never change); once the cursor equals
`N`, it stays there, every later `check` returns `NoMatch` and every
later `skip` returns `buf.end() - offset`, the remainder of the buffer. -/
theorem sig_cursor_monotone_and_exhaustion :
    ∀ (c : SignatureScannerCheck) (calls : List SigCall),
      (sigRun c calls).needles = c.needles
      ∧ c.current_needle ≤ (sigRun c calls).current_needle
      ∧ (c.current_needle ≤ c.needles.length →
          (sigRun c calls).current_needle ≤ c.needles.length)
      ∧ (c.current_needle = c.needles.length →
          (sigRun c calls).current_needle = c.needles.length
          ∧ ∀ (buf : BufferAddressSpace) (off : Nat),
              ((sigRun c calls).check buf off).2 = none
              ∧ (sigRun c calls).skip buf off = buf.end' - off) := by
  intro c calls
  obtain ⟨hn, hm, hb⟩ := sigRun_facts calls c
  refine ⟨hn, hm, fun hle => by omega, fun hexact => ?_⟩
  have hcur : (sigRun c calls).current_needle = c.needles.length := by omega
  have hle : (sigRun c calls).needles.length
      ≤ (sigRun c calls).current_needle := by rw [hn, hcur]
  refine ⟨hcur, fun buf off => ⟨?_, ?_⟩⟩
  · unfold SignatureScannerCheck.check
    rw [if_pos hle]
  · unfold SignatureScannerCheck.skip
    rw [if_pos hle]

/-- C4 witness: an exhausted one-part signature check stays exhausted
after a further `check` call; `check` reports no match and `skip` skips
to the end of the buffer. -/
theorem sig_cursor_monotone_and_exhaustion_witness :
    ((sigRun sigDone [SigCall.chk bufABAB 0]).check bufABAB 2).2 = none
    ∧ (sigRun sigDone [SigCall.chk bufABAB 0]).skip bufABAB 2
        = bufABAB.end' - 2 :=
  ((sig_cursor_monotone_and_exhaustion sigDone
    [SigCall.chk bufABAB 0]).2.2.2 rfl).2 bufABAB 2


theorem desc_of_rev_sublist {H R1 : List (Str × Nat)}
    (hd : H.Pairwise (fun a b => b.2 ≤ a.2))
    (hsub : List.Sublist R1 H.reverse) :
    R1.reverse.Pairwise (fun a b => b.2 ≤ a.2) := by
  have h2 := List.Sublist.reverse hsub
  rw [List.reverse_reverse] at h2
  exact List.Pairwise.sublist h2 hd

theorem msf_check_desc (c : MultiStringFinderCheck)
    (buf : BufferAddressSpace) (off : Nat)
    (h : ∀ l, c.hits = some l → l.Pairwise (fun a b => b.2 ≤ a.2)) :
    ∀ l, ((c.check buf off).1).hits = some l →
      l.Pairwise (fun a b => b.2 ≤ a.2) := by
  intro l hl
  unfold MultiStringFinderCheck.check at hl
  by_cases hb : some buf.base_offset ≠ c.base_offset
  · rw [if_pos hb] at hl
    simp only [] at hl
    injection hl with hl
    subst hl
    exact desc_of_rev_sublist (computeHits_desc c.needles buf.data)
      (msfCheckLoopRev_sublist _ _)
  · rw [if_neg hb] at hl
    simp only [] at hl
    cases hh : c.hits with
    | none =>
      rw [hh] at hl
      simp only [] at hl
      rw [hh] at hl
      exact absurd hl (by simp)
    | some H =>
      rw [hh] at hl
      simp only [] at hl
      injection hl with hl
      subst hl
      exact desc_of_rev_sublist (h H hh) (msfCheckLoopRev_sublist _ _)

theorem msf_skip_desc (c : MultiStringFinderCheck)
    (buf : BufferAddressSpace) (off : Nat)
    (h : ∀ l, c.hits = some l → l.Pairwise (fun a b => b.2 ≤ a.2)) :
    ∀ l, ((c.skip buf off).1).hits = some l →
      l.Pairwise (fun a b => b.2 ≤ a.2) := by
  intro l hl
  unfold MultiStringFinderCheck.skip at hl
  simp only [] at hl
  cases hh : c.hits with
  | none =>
    rw [hh] at hl
    simp only [] at hl
    rw [hh] at hl
    exact absurd hl (by simp)
  | some H =>
    rw [hh] at hl
    simp only [] at hl
    injection hl with hl
    subst hl
    exact desc_of_rev_sublist (h H hh) (msfSkipLoopRev_sublist _ _ _ _)

theorem msfRun_desc (calls : List MsfCall) :
    ∀ c : MultiStringFinderCheck,
      (∀ l, c.hits = some l → l.Pairwise (fun a b => b.2 ≤ a.2)) →
      ∀ l, (msfRun c calls).hits = some l →
        l.Pairwise (fun a b => b.2 ≤ a.2) := by
  induction calls with
  | nil => intro c h l hl; exact h l hl
  | cons k ks ih =>
    intro c h l hl
    have hrun : msfRun c (k :: ks) = msfRun (msfStep c k) ks := by
      simp [msfRun, List.foldl_cons]
    rw [hrun] at hl
    refine ih (msfStep c k) ?_ l hl
    cases k with
    | chk buf off => exact msf_check_desc c buf off h
    | skp buf off => exact msf_skip_desc c buf off h

theorem desc_getLast_min (l : List (Str × Nat))
    (hd : l.Pairwise (fun a b => b.2 ≤ a.2)) (y : Str × Nat)
    (hy : l.getLast? = some y) : ∀ x ∈ l, y.2 ≤ x.2 := by
  intro x hx
  have hasc : l.reverse.Pairwise (fun a b => a.2 ≤ b.2) :=
    List.pairwise_reverse.mpr hd
  have h1 : l.reverse.head? = some y := by rw [List.head?_reverse]; exact hy
  have hx1 : x ∈ l.reverse := List.mem_reverse.mpr hx
  cases hrev : l.reverse with
  | nil => rw [hrev] at h1; exact absurd h1 (by simp)
  | cons a t =>
    rw [hrev] at h1 hasc hx1
    obtain rfl : a = y := by injection h1
    rcases List.mem_cons.mp hx1 with rfl | hxt
    · exact le_refl _
    · exact (List.pairwise_cons.mp hasc).1 x hxt

theorem msf_init_hits_none (ns : List Str) (c0 : MultiStringFinderCheck)
    (h : MultiStringFinderCheck.init (some ns) = .ok c0) : c0.hits = none := by
  unfold MultiStringFinderCheck.init at h
  simp only [] at h
  by_cases he : ns.isEmpty
  · rw [if_pos he] at h; exact absurd h (by simp)
  · rw [if_neg he] at h
    injection h with h
    rw [← h]

/-- C5: for any `MultiStringFinderCheck` instance, after any sequence of
`check` and `skip` calls the cached hit list (when present) is sorted in
descending order of relative offset, so the hit with the smallest
remaining relative offset is always at the tail of the list. -/
theorem msf_hits_sorted_descending :
    ∀ (ns : List Str) (c0 : MultiStringFinderCheck) (calls : List MsfCall)
      (l : List (Str × Nat)),
      MultiStringFinderCheck.init (some ns) = .ok c0 →
      (msfRun c0 calls).hits = some l →
      l.Pairwise (fun a b => b.2 ≤ a.2)
      ∧ ∀ (y : Str × Nat), l.getLast? = some y → ∀ x ∈ l, y.2 ≤ x.2 := by
  intro ns c0 calls l hinit hl
  have h0 : ∀ l0, c0.hits = some l0 →
      l0.Pairwise (fun a b => b.2 ≤ a.2) := by
    intro l0 hl0
    rw [msf_init_hits_none ns c0 hinit] at hl0
    exact absurd hl0 (by simp)
  have hd := msfRun_desc calls c0 h0 l hl
  exact ⟨hd, fun y hy => desc_getLast_min l hd y hy⟩

/-- C5 witness: after one `check` call over the buffer `ABA`, the needle
`A` leaves the cached hit list `[(A, 2)]`, which is descending. -/
theorem msf_hits_sorted_descending_witness :
    (msfRun msfA [MsfCall.chk bufABA 0]).hits = some [(chars "A", 2)]
    ∧ [(chars "A", 2)].Pairwise (fun a b => b.2 ≤ a.2) :=
  ⟨by decide,
   (msf_hits_sorted_descending [chars "A"] msfA [MsfCall.chk bufABA 0]
     [(chars "A", 2)] rfl (by decide)).1⟩

/-- C6: with parts `["AA", "AA"]` over the data `AAAA` from offset 0, the
signature scanner reports exactly two hits, at offsets 0 and 2.  After the
first part matches at 0 the cursor is 1, so `skip` applies the correction
`len(needles[0]) = 2` and searches from relative offset `0 + 2`, returning
a skip of 2 — even though the part also occurs at relative offset 1
(which is therefore not reported). -/
theorem signature_skips_prior_part_overlap :
    (BaseScanner.scan SignatureScanner.ops (1024 * 1024) aspAAAA
        BaseScanner.overlap sigAA 0 (some 4) 5 10).map (fun r => r.1)
      = some [0, 2]
    ∧ SignatureScannerCheck.correction
        { needles := [chars "AA", chars "AA"], current_needle := 1 } = 2
    ∧ SignatureScannerCheck.skip
        { needles := [chars "AA", chars "AA"], current_needle := 1 }
        { data := chars "AAAA", base_offset := 0 } 0 = 2
    ∧ startswith (chars "AAAA") (chars "AA") 1 = true :=
  ⟨by decide, by decide, by decide, by decide⟩
